import Mathlib

/-!
Verification development for the service-discovery crawler
(`find_other_company_services.js`).

The JavaScript source is shallowly embedded:

* JS strings are Lean `String`s; JS `String.prototype.startsWith`,
  `endsWith`, `includes`, `split` and `toLowerCase` are modelled by
  list-of-character functions defined below.
* The WHATWG `URL` constructor (platform library) is modelled by
  `parseUrl`, which returns `none` where `new URL(...)` throws; the model
  keeps exactly the fields the crawler reads (lower-cased `hostname` and
  `pathname`).
* The per-run registries (`potentialDifferentServices`, `allExploredUrls`,
  `startUrlChildren`) are JS objects mapping string keys to arrays; they
  are modelled as association lists.  Reading a missing key yields
  `undefined` in JS, so the idiom `if (!m[k].includes(v)) m[k].push(v)`
  throws a `TypeError` when the key is absent: `pushNewChecked` returns
  `none` exactly in that case.
* The Playwright page is abstracted to `PageModel`: the outcome of
  clicking each enumerated non-anchor element, the cross-domain anchors
  collected by the `$$eval`, and the same-hostname anchors that
  `enqueueLinks` feeds through `transformRequestFunction`.
* The crawlee crawler (`maxConcurrency: 1`) processes the request queue
  strictly sequentially; `runCrawl` models that loop with the request
  budget (`maxRequestsPerCrawl`) as fuel.  The queue deduplicates added
  requests by URL (crawlee's default `uniqueKey`), modelled by the `seen`
  set in `addMany`.  Navigation failures and retries are not modelled: a
  handler that throws simply has its request marked failed (mutations made
  before the throw persist, as they do on the shared JS globals).
-/

/-! ## Character and string primitives (models of JS string methods) -/

/-- Is `c` an ASCII uppercase letter? -/
def isAsciiUpper (c : Char) : Bool :=
  65 ≤ c.toNat && c.toNat ≤ 90

/-- ASCII lower-casing of one character (model of what `toLowerCase` and
WHATWG host parsing do on the ASCII range, the only range exercised here). -/
def lowerChar (c : Char) : Char :=
  if isAsciiUpper c then Char.ofNat (c.toNat + 32) else c

/-- Model of JS `String.prototype.toLowerCase` (ASCII range). -/
def lowerStr (s : String) : String :=
  String.mk (s.toList.map lowerChar)

/-- Does the second list start with the first? -/
def startsSeq : List Char → List Char → Bool
  | [], _ => true
  | _ :: _, [] => false
  | a :: as, b :: bs => a == b && startsSeq as bs

/-- Does `l` contain `sub` as a contiguous subsequence? -/
def containsSeq (sub : List Char) : List Char → Bool
  | [] => sub.isEmpty
  | b :: bs => startsSeq sub (b :: bs) || containsSeq sub bs

/-- Model of JS `s.startsWith(pre)`. -/
def jsStartsWith (s pre : String) : Bool :=
  startsSeq pre.toList s.toList

/-- Model of JS `s.endsWith(post)`. -/
def jsEndsWith (s post : String) : Bool :=
  startsSeq post.toList.reverse s.toList.reverse

/-- Model of JS `s.includes(sub)`. -/
def jsIncludes (s sub : String) : Bool :=
  containsSeq sub.toList s.toList

/-- Splitting on a single separator character (model of JS `s.split(sep)`). -/
def splitOnCharAux (sep : Char) : List Char → List Char → List (List Char)
  | [], acc => [acc.reverse]
  | c :: rest, acc =>
    if c == sep then acc.reverse :: splitOnCharAux sep rest []
    else splitOnCharAux sep rest (c :: acc)

/-- Model of JS `s.split(sep)` for a one-character separator. -/
def splitOnChar (sep : Char) (l : List Char) : List (List Char) :=
  splitOnCharAux sep l []

/-! ## URL model (the WHATWG `URL` platform class, as used by the crawler) -/

/-- The fields of a parsed URL that the crawler reads. -/
structure ParsedUrl where
  scheme : String
  hostname : String
  pathname : String
deriving DecidableEq, Repr

def isAsciiAlpha (c : Char) : Bool :=
  (65 ≤ c.toNat && c.toNat ≤ 90) || (97 ≤ c.toNat && c.toNat ≤ 122)

def isAsciiDigit (c : Char) : Bool :=
  48 ≤ c.toNat && c.toNat ≤ 57

def isSchemeChar (c : Char) : Bool :=
  isAsciiAlpha c || isAsciiDigit c || c == '+' || c == '-' || c == '.'

/-- Split a character list at the first `:`; `none` when there is no `:`. -/
def splitAtColon : List Char → Option (List Char × List Char)
  | [] => none
  | c :: rest =>
    if c == ':' then some ([], rest)
    else
      match splitAtColon rest with
      | some (a, b) => some (c :: a, b)
      | none => none

/-- Extract the host from an authority component: drop any userinfo
(`…@`) and any port (`:…`). -/
def hostOfAuthority (a : List Char) : List Char :=
  let afterAt := (splitOnChar '@' a).getLastD []
  (splitOnChar ':' afterAt).headD []

/-- The WHATWG special schemes: only for these does host parsing
lower-case the hostname; hosts of other schemes are opaque and preserve
case. -/
def SPECIAL_SCHEMES : List String := ["http", "https", "ws", "wss", "ftp", "file"]

/-- Model of `new URL(s)`: `none` where the constructor throws.  A URL is
a scheme followed by `:`; with `//` it has an authority whose host must be
non-empty and is lower-cased exactly when the scheme is special (WHATWG
opaque hosts preserve case); without `//` it is an opaque-path URL (such
as `mailto:`) whose hostname is empty.  Query/fragment parts are stripped
from the pathname; an empty path of a hosted URL reads back as `/`. -/
def parseUrl (s : String) : Option ParsedUrl :=
  match splitAtColon s.toList with
  | none => none
  | some (schemeChars, rest) =>
    match schemeChars with
    | [] => none
    | c0 :: _ =>
      if isAsciiAlpha c0 && schemeChars.all isSchemeChar then
        let scheme := String.mk (schemeChars.map lowerChar)
        match rest with
        | '/' :: '/' :: after =>
          let authority := after.takeWhile fun c => !(c == '/' || c == '?' || c == '#')
          let pathetc := after.dropWhile fun c => !(c == '/' || c == '?' || c == '#')
          let host := hostOfAuthority authority
          if host.isEmpty then none
          else
            let path := pathetc.takeWhile fun c => !(c == '?' || c == '#')
            some { scheme := scheme,
                   hostname :=
                     if scheme ∈ SPECIAL_SCHEMES then lowerStr (String.mk host)
                     else String.mk host,
                   pathname := if path.isEmpty then "/" else String.mk path }
        | _ =>
          some { scheme := scheme, hostname := "",
                 pathname := String.mk (rest.takeWhile fun c => !(c == '?' || c == '#')) }
      else none

/-! ## Configuration lists (lines 14–38 of the source) -/

def MAX_REQUESTS_PER_CRAWL : Nat := 100

def INTERNAL_TOOL_INDICATORS : List String := [
  "login", "dashboard", "app", "portal", "admin", "console", "platform",
  "signup", "sign-up", "sign_up", "register", "account", "auth",
  "api", "docs", "documentation", "developer", "dev",
  "tool", "tools", "workspace", "client", "manage", "management",
  "analytics", "report", "reports", "monitor", "monitoring"]

def EXCLUDED_DOMAINS : List String := [
  "twitter.com", "x.com",
  "facebook.com", "fb.com",
  "instagram.com",
  "linkedin.com",
  "youtube.com",
  "github.com",
  "medium.com",
  "discord.com", "discord.gg",
  "slack.com",
  "reddit.com",
  "pinterest.com",
  "tiktok.com"]

/-! ## URL classifier (lines 45–158 of the source) -/

/-- `extractDomain` (lines 45–53): the hostname of the URL, or `""` when
`new URL` throws (the catch block logs and returns `''`). -/
def extractDomain (url : String) : String :=
  match parseUrl url with
  | some parsedUrl => parsedUrl.hostname
  | none => ""

/-- `shouldExcludeUrl` (lines 97–109): `mailto:`/`tel:` links and the
fixed third-party domain deny-list (exact hostname or subdomain). -/
def shouldExcludeUrl (url : String) : Bool :=
  if jsStartsWith url "mailto:" || jsStartsWith url "tel:" then true
  else
    let domain := extractDomain url
    EXCLUDED_DOMAINS.any fun excludedDomain =>
      domain == excludedDomain || jsEndsWith domain ("." ++ excludedDomain)

/-- One segment matched against one indicator token (lines 139–142):
exact match or hyphen-bounded occurrence. -/
def segMatches (segment indicator : String) : Bool :=
  segment == indicator ||
  jsStartsWith segment (indicator ++ "-") ||
  jsEndsWith segment ("-" ++ indicator) ||
  jsIncludes segment ("-" ++ indicator ++ "-")

/-- The non-empty `/`-separated segments of a path (line 133). -/
def pathSegments (path : String) : List String :=
  ((splitOnChar '/' path.toList).map String.mk).filter fun s => s != ""

/-- Lines 136–144: some segment matches some indicator. -/
def hasToolIndicator (path : String) : Bool :=
  (pathSegments path).any fun segment =>
    INTERNAL_TOOL_INDICATORS.any fun indicator => segMatches segment indicator

/-- `isPotentialDifferentService` (lines 117–158). -/
def isPotentialDifferentService (originalUrl targetUrl : String) : Bool :=
  if shouldExcludeUrl targetUrl then false
  else
    match parseUrl originalUrl, parseUrl targetUrl with
    | some originalParsed, some targetParsed =>
      if originalParsed.hostname != targetParsed.hostname then true
      else
        let targetPath := lowerStr targetParsed.pathname
        if !(hasToolIndicator targetPath) then false
        else
          let originalPath := lowerStr originalParsed.pathname
          if jsStartsWith targetPath originalPath && targetPath != originalPath then false
          else true
    | _, _ => false


/-! ## Registries (the JS global objects, lines 9–11) -/

/-- A JS object used as a map from string keys to arrays of strings. -/
abbrev Registry := List (String × List String)

def regLookup : Registry → String → Option (List String)
  | [], _ => none
  | (k0, w) :: rest, k => if k0 = k then some w else regLookup rest k

/-- JS property assignment `m[k] = v` (replaces, or appends a new key). -/
def regSet : Registry → String → List String → Registry
  | [], k, v => [(k, v)]
  | (k0, w) :: rest, k, v =>
    if k0 = k then (k, v) :: rest else (k0, w) :: regSet rest k v

def regKeys (r : Registry) : List String := r.map Prod.fst

/-- The value stored under `k`, defaulting to `[]`. -/
def getList (r : Registry) (k : String) : List String :=
  (regLookup r k).getD []

/-- The idiom `if (!m[k].includes(v)) m[k].push(v)`: returns `none` when
`m[k]` is `undefined` (the `.includes` call then throws a `TypeError`). -/
def pushNewChecked (r : Registry) (k v : String) : Option Registry :=
  match regLookup r k with
  | none => none
  | some l => some (if v ∈ l then r else regSet r k (l ++ [v]))

/-- The guarded idiom `if (m[k] && !m[k].includes(v)) m[k].push(v)`
(line 222): a missing key is skipped, never an error. -/
def pushIfExists (r : Registry) (k v : String) : Registry :=
  match regLookup r k with
  | none => r
  | some l => if v ∈ l then r else regSet r k (l ++ [v])

/-- `if (!m[k]) m[k] = []` (lines 215–217). -/
def ensureKey (r : Registry) (k : String) : Registry :=
  match regLookup r k with
  | none => regSet r k []
  | some _ => r

/-! ## Crawl data model -/

/-- `request.userData` (all fields optional, as on a plain JS object). -/
structure UserData where
  label : Option String
  parentUrl : Option String
  originalDomain : Option String
  companyName : Option String
deriving DecidableEq, Repr

structure Request where
  url : String
  userData : UserData
deriving DecidableEq, Repr

/-- JS `x || d` for an optional string field (`''` is falsy). -/
def jsOr (x : Option String) (d : String) : String :=
  match x with
  | some s => if s = "" then d else s
  | none => d

/-- `request.userData.label || 'start'` (line 209). -/
def resolvedLabel (r : Request) : String :=
  jsOr r.userData.label "start"

/-- The child request built at lines 397–405 / 485–493. -/
def childReq (u parent originalDomain companyName : String) : Request :=
  { url := u,
    userData := { label := some "child", parentUrl := some parent,
                  originalDomain := some originalDomain,
                  companyName := some companyName } }

/-- What clicking one enumerated non-anchor element resolves to: a new
browsing context with the given URL, an in-place navigation of the current
page, or nothing. -/
inductive ClickOutcome where
  | newPage (u : String)
  | navTo (u : String)
  | noNav
deriving DecidableEq, Repr

/-- The rendered page, abstracted to what the handler reads from it. -/
structure PageModel where
  clickables : List ClickOutcome
  crossDomainLinks : List String
  sameHostLinks : List String
deriving Repr

/-- The three per-run registries (lines 9–11). -/
structure CrawlState where
  potentialDifferentServices : Registry
  allExploredUrls : Registry
  startUrlChildren : Registry
deriving DecidableEq, Repr

/-! ## The request handler (lines 207–549), phase by phase -/

/-- One iteration of the interactive-element probing loop
(lines 352–448).  Every error in this loop is caught (lines 441–446), so
a failing registry access skips the rest of the element's processing but
never propagates. -/
def probeStep (url originalDomain companyName : String) (isStart : Bool)
    (st : CrawlState) (o : ClickOutcome) : CrawlState × List Request :=
  match o with
  | .noNav => (st, [])
  | .newPage u =>
    if u = url then (st, [])
    else
      match pushNewChecked st.allExploredUrls url u with
      | none => (st, [])
      | some e1 =>
        let st1 := { st with allExploredUrls := e1 }
        if isStart then
          match pushNewChecked st1.potentialDifferentServices url u with
          | none => (st1, [])
          | some p1 =>
            let st2 := { st1 with potentialDifferentServices := p1 }
            match pushNewChecked st2.startUrlChildren url u with
            | none => (st2, [childReq u url originalDomain companyName])
            | some s1 =>
              ({ st2 with startUrlChildren := s1 },
               [childReq u url originalDomain companyName])
        else (st1, [])
  | .navTo u =>
    if u = url then (st, [])
    else
      match pushNewChecked st.allExploredUrls url u with
      | none => (st, [])
      | some e1 =>
        let st1 := { st with allExploredUrls := e1 }
        if isStart then
          match pushNewChecked st1.potentialDifferentServices url u with
          | none => (st1, [])
          | some p1 => ({ st1 with potentialDifferentServices := p1 }, [])
        else (st1, [])

/-- The whole probing loop. -/
def probePhase (url originalDomain companyName : String) (isStart : Bool)
    (st : CrawlState) : List ClickOutcome → CrawlState × List Request
  | [] => (st, [])
  | o :: rest =>
    let r1 := probeStep url originalDomain companyName isStart st o
    let r2 := probePhase url originalDomain companyName isStart r1.1 rest
    (r2.1, r1.2 ++ r2.2)

/-- One iteration of the cross-domain anchor loop (lines 463–499).  This
loop has no try/catch: the `Bool` result records whether a `TypeError`
was thrown (registry key missing), which aborts the handler. -/
def crossStep (url originalDomain companyName : String)
    (st : CrawlState) (targetUrl : String) :
    CrawlState × List Request × Bool :=
  if shouldExcludeUrl targetUrl then (st, [], false)
  else if jsIncludes (lowerStr targetUrl) companyName then
    match pushNewChecked st.allExploredUrls url targetUrl with
    | none => (st, [], true)
    | some e1 =>
      let st1 := { st with allExploredUrls := e1 }
      match pushNewChecked st1.potentialDifferentServices url targetUrl with
      | none => (st1, [], true)
      | some p1 =>
        let st2 := { st1 with potentialDifferentServices := p1 }
        match pushNewChecked st2.startUrlChildren url targetUrl with
        | none => (st2, [childReq targetUrl url originalDomain companyName], true)
        | some s1 =>
          ({ st2 with startUrlChildren := s1 },
           [childReq targetUrl url originalDomain companyName], false)
  else (st, [], false)

/-- The cross-domain anchor loop; a throw ends the loop. -/
def crossPhase (url originalDomain companyName : String)
    (st : CrawlState) : List String → CrawlState × List Request × Bool
  | [] => (st, [], false)
  | t :: rest =>
    let r1 := crossStep url originalDomain companyName st t
    if r1.2.2 then r1
    else
      let r2 := crossPhase url originalDomain companyName r1.1 rest
      (r2.1, r1.2.1 ++ r2.2.1, r2.2.2)

/-- `transformRequestFunction` for one same-hostname anchor
(lines 507–544).  A throw inside it propagates out of `enqueueLinks`. -/
def staticStep (url originalDomain companyName : String)
    (st : CrawlState) (targetUrl : String) :
    CrawlState × List Request × Bool :=
  if shouldExcludeUrl targetUrl || targetUrl == url then (st, [], false)
  else
    match pushNewChecked st.allExploredUrls url targetUrl with
    | none => (st, [], true)
    | some e1 =>
      let st1 := { st with allExploredUrls := e1 }
      let isDifferentService := isPotentialDifferentService url targetUrl
      let isDifferentSubdomain := extractDomain url != extractDomain targetUrl
      if isDifferentService || isDifferentSubdomain then
        match pushNewChecked st1.potentialDifferentServices url targetUrl with
        | none => (st1, [], true)
        | some p1 =>
          ({ st1 with potentialDifferentServices := p1 },
           [childReq targetUrl url originalDomain companyName], false)
      else (st1, [], false)

/-- The same-hostname `enqueueLinks` pass (lines 502–546). -/
def staticPhase (url originalDomain companyName : String)
    (st : CrawlState) : List String → CrawlState × List Request × Bool
  | [] => (st, [], false)
  | t :: rest =>
    let r1 := staticStep url originalDomain companyName st t
    if r1.2.2 then r1
    else
      let r2 := staticPhase url originalDomain companyName r1.1 rest
      (r2.1, r1.2.1 ++ r2.2.1, r2.2.2)

/-- Everything one handler invocation did, phase by phase. -/
structure PhaseLog where
  stAfterPre : CrawlState
  stAfterProbe : CrawlState
  probeEnq : List Request
  stAfterCross : CrawlState
  crossEnq : List Request
  crossErr : Bool
  stAfterStatic : CrawlState
  staticEnq : List Request
  staticErr : Bool
deriving DecidableEq, Repr

/-- `request.userData.originalDomain || extractDomain(url)` (line 210). -/
def reqOriginalDomain (req : Request) : String :=
  jsOr req.userData.originalDomain (extractDomain req.url)

/-- `request.userData.companyName || ''` (line 211). -/
def reqCompanyName (req : Request) : String :=
  jsOr req.userData.companyName ""

/-- Handler entry bookkeeping (lines 215–225): ensure the explored entry
for the current URL exists; register a `child` request under its parent
in `startUrlChildren` when that parent has an entry. -/
def preState (req : Request) (st0 : CrawlState) : CrawlState :=
  let stA := { st0 with allExploredUrls := ensureKey st0.allExploredUrls req.url }
  if resolvedLabel req = "child" then
    match req.userData.parentUrl with
    | some parentUrl =>
      if parentUrl ≠ "" then
        { stA with startUrlChildren := pushIfExists stA.startUrlChildren parentUrl req.url }
      else stA
    | none => stA
  else stA

/-- The probing loop as run by the handler (lines 352–448). -/
def probeRes (req : Request) (page : PageModel) (st0 : CrawlState) :
    CrawlState × List Request :=
  probePhase req.url (reqOriginalDomain req) (reqCompanyName req)
    (resolvedLabel req = "start") (preState req st0) page.clickables

/-- The cross-domain anchor loop as run by the handler (lines 463–499). -/
def crossRes (req : Request) (page : PageModel) (st0 : CrawlState) :
    CrawlState × List Request × Bool :=
  crossPhase req.url (reqOriginalDomain req) (reqCompanyName req)
    (probeRes req page st0).1 page.crossDomainLinks

/-- The `enqueueLinks` pass as run by the handler (lines 502–546): skipped
when the cross-domain loop threw, and run only for `start` requests. -/
def staticRes (req : Request) (page : PageModel) (st0 : CrawlState) :
    CrawlState × List Request × Bool :=
  let cr := crossRes req page st0
  if cr.2.2 then (cr.1, ([] : List Request), false)
  else if resolvedLabel req = "start" then
    staticPhase req.url (reqOriginalDomain req) (reqCompanyName req)
      cr.1 page.sameHostLinks
  else (cr.1, ([] : List Request), false)

/-- `requestHandler` (lines 207–549).  `stAfterStatic` is the state of the
globals when the handler returns (or throws); `crossErr`/`staticErr`
record an uncaught throw, which makes crawlee mark the request failed. -/
def requestHandler (req : Request) (page : PageModel) (st0 : CrawlState) : PhaseLog :=
  { stAfterPre := preState req st0,
    stAfterProbe := (probeRes req page st0).1, probeEnq := (probeRes req page st0).2,
    stAfterCross := (crossRes req page st0).1, crossEnq := (crossRes req page st0).2.1,
    crossErr := (crossRes req page st0).2.2,
    stAfterStatic := (staticRes req page st0).1, staticEnq := (staticRes req page st0).2.1,
    staticErr := (staticRes req page st0).2.2 }

/-! ## The crawl loop (`crawler.run`, `maxConcurrency: 1`) -/

structure RunState where
  st : CrawlState
  seen : List String
  frontier : List Request
  trace : List (Request × PhaseLog)
deriving Repr

/-- `crawler.addRequests` / `enqueueLinks`: append to the queue, skipping
URLs already added at any point (crawlee's default `uniqueKey` dedup). -/
def addMany (seen : List String) (front : List Request) :
    List Request → List String × List Request
  | [] => (seen, front)
  | r :: rest =>
    if r.url ∈ seen then addMany seen front rest
    else addMany (seen ++ [r.url]) (front ++ [r]) rest

/-- The sequential crawl loop; fuel models `maxRequestsPerCrawl`. -/
def runCrawl (web : String → PageModel) : Nat → RunState → RunState
  | 0, rs => rs
  | Nat.succ fuel, rs =>
    match rs.frontier with
    | [] => rs
    | r :: rest =>
      let log := requestHandler r (web r.url) rs.st
      let enq := log.probeEnq ++ log.crossEnq ++ log.staticEnq
      let next := addMany rs.seen rest enq
      runCrawl web fuel
        { st := log.stAfterStatic, seen := next.1, frontier := next.2,
          trace := rs.trace ++ [(r, log)] }

/-! ## `findCompanyServices` (lines 164–596) -/

structure Company where
  name : String
  url : String
deriving DecidableEq, Repr

/-- Lines 171–174: initialize `startUrlChildren` and
`potentialDifferentServices` for each start URL. -/
def initState (companies : List Company) : CrawlState :=
  companies.foldl
    (fun st c =>
      { st with
        startUrlChildren := regSet st.startUrlChildren c.url [],
        potentialDifferentServices := regSet st.potentialDifferentServices c.url [] })
    { potentialDifferentServices := [], allExploredUrls := [], startUrlChildren := [] }

/-- Lines 559–568: the initial `start`-labelled request for one company. -/
def initialRequest (c : Company) : Request :=
  { url := c.url,
    userData := { label := some "start", parentUrl := none,
                  originalDomain := some (extractDomain c.url),
                  companyName := some (lowerStr c.name) } }

def initialRequests (companies : List Company) : List Request :=
  companies.map initialRequest

/-- The crawl session: seed the queue with the initial requests and run. -/
def findCompanyServicesRun (companies : List Company) (web : String → PageModel)
    (fuel : Nat) : RunState :=
  let init := addMany [] [] (initialRequests companies)
  runCrawl web fuel
    { st := initState companies, seen := init.1, frontier := init.2, trace := [] }

/-- One output record (lines 573–585). -/
structure ResultRecord where
  url : String
  potentialDifferentServices : List String
  allExploredUrls : List String
deriving DecidableEq, Repr

/-- `findCompanyServices`: run the crawl and flatten the registries into
the per-company output records (lines 573–585). -/
def findCompanyServices (companies : List Company) (web : String → PageModel) :
    List ResultRecord :=
  let rs := findCompanyServicesRun companies web MAX_REQUESTS_PER_CRAWL
  companies.map fun c =>
    { url := c.url,
      potentialDifferentServices :=
        (getList rs.st.potentialDifferentServices c.url).filter fun s => s != c.url,
      allExploredUrls := getList rs.st.allExploredUrls c.url }

/-! ## Derived definitions used by the theorems -/

/-- `r'` extends `r`: present keys stay present and stored values are
never removed (all registry mutations in the handler only append). -/
def regExt (r r' : Registry) : Prop :=
  (∀ k, (regLookup r k).isSome = true → (regLookup r' k).isSome = true) ∧
  (∀ k v, v ∈ getList r k → v ∈ getList r' k)

/-- State-level extension: every registry only grows. -/
def stExt (s s' : CrawlState) : Prop :=
  regExt s.potentialDifferentServices s'.potentialDifferentServices ∧
  regExt s.allExploredUrls s'.allExploredUrls ∧
  regExt s.startUrlChildren s'.startUrlChildren

/-- What claim C3 asserts of one processed request: a `child`-labelled
request enqueues nothing from any phase, and its extraction phases leave
`potentialDifferentServices` and `startUrlChildren` untouched (they only
record explored URLs). -/
def childClean (e : Request × PhaseLog) : Prop :=
  resolvedLabel e.1 = "child" →
    e.2.probeEnq = [] ∧ e.2.crossEnq = [] ∧ e.2.staticEnq = [] ∧
    e.2.stAfterCross.potentialDifferentServices = e.2.stAfterProbe.potentialDifferentServices ∧
    e.2.stAfterCross.startUrlChildren = e.2.stAfterProbe.startUrlChildren ∧
    e.2.stAfterStatic = e.2.stAfterCross

instance (e : Request × PhaseLog) : Decidable (childClean e) := by
  unfold childClean; infer_instance

/-- Invariant carried through the crawl loop: every key of
`potentialDifferentServices` was enqueued at some point (it is a seed
URL); `child` requests waiting in the frontier have no
`potentialDifferentServices` entry (they were deduplicated against all
seen URLs, and all seed URLs are seen from the start); every processed
request satisfies `childClean`. -/
def InvC3 (rs : RunState) : Prop :=
  (∀ k, (regLookup rs.st.potentialDifferentServices k).isSome = true → k ∈ rs.seen) ∧
  (∀ r ∈ rs.frontier, resolvedLabel r = "child" →
    regLookup rs.st.potentialDifferentServices r.url = none) ∧
  (∀ e ∈ rs.trace, childClean e)

/-- Every URL recorded as explored while the handler processed the seed
request itself (the entry under the seed's own key after one step). -/
def seedStepExplored (c : Company) (web : String → PageModel) : List String :=
  getList (requestHandler (initialRequest c) (web c.url)
    (initState [c])).stAfterStatic.allExploredUrls c.url

def firstResult (rs : List ResultRecord) : ResultRecord :=
  rs.headD ⟨"", [], []⟩

/-- No character of the string is an ASCII uppercase letter
(the sense in which a hostname is "lowercase"). -/
def isLowerAsciiStr (s : String) : Bool :=
  s.toList.all fun c => !(isAsciiUpper c)

/-- The claim's wording: the URL's hostname equals, or is a subdomain of,
an entry of the deny-list. -/
def hostnameMatchesExcluded (h : String) : Prop :=
  ∃ d ∈ EXCLUDED_DOMAINS, h = d ∨ ∃ pre : String, h = pre ++ ("." ++ d)

/-! ## Concrete scenarios used by the claim checks -/

def emptyPage : PageModel := { clickables := [], crossDomainLinks := [], sameHostLinks := [] }

def c2seed : String := "https://c2seed.example/"

def c2child : String := "https://c2child.example/"

def c2deep : String := "https://c2deep.example/"

def c2company : Company := { name := "Acme", url := c2seed }

/-- A site whose seed page opens a new context on `c2child`; the child
page then navigates in place to `c2deep`. -/
def c2web : String → PageModel := fun u =>
  if u = c2seed then { clickables := [.newPage c2child], crossDomainLinks := [], sameHostLinks := [] }
  else if u = c2child then { clickables := [.navTo c2deep], crossDomainLinks := [], sameHostLinks := [] }
  else emptyPage

def c3seed : String := "https://c3seed.example/"

def c3child : String := "https://c3child.example/"

def c3company : Company := { name := "acme", url := c3seed }

/-- A site whose child page carries a same-host anchor with an indicator
segment, a cross-domain anchor, and an in-place navigation. -/
def c3web : String → PageModel := fun u =>
  if u = c3seed then { clickables := [.newPage c3child], crossDomainLinks := [], sameHostLinks := [] }
  else if u = c3child then
    { clickables := [.navTo "https://c3nav.example/"],
      crossDomainLinks := ["https://other.example/"],
      sameHostLinks := ["https://c3child.example/admin"] }
  else emptyPage

/-- The second trace entry of the `c3web` run: the `child` request. -/
def c3entry : Request × PhaseLog :=
  (findCompanyServicesRun [c3company] c3web 100).trace.getD 1
    (initialRequest c3company,
     requestHandler (initialRequest c3company) emptyPage (initState [c3company]))

def c4seed : String := "https://c4seed.example/"

def c4child : String := "https://c4child.example/"

def c4cross : String := "https://acme.partner.example/"

def c4company : Company := { name := "Acme", url := c4seed }

/-- A site whose child page has a non-excluded cross-domain anchor
containing the brand token ("acme"). -/
def c4web : String → PageModel := fun u =>
  if u = c4seed then { clickables := [.newPage c4child], crossDomainLinks := [], sameHostLinks := [] }
  else if u = c4child then { clickables := [], crossDomainLinks := [c4cross], sameHostLinks := [] }
  else emptyPage

def c5seed : String := "https://c5seed.example/"

def c5nav : String := "https://c5nav.example/"

def c5new : String := "https://c5new.example/"

def c5company : Company := { name := "Acme", url := c5seed }

def c5reqSeed : Request := initialRequest c5company

def c5pageNav : PageModel :=
  { clickables := [.navTo c5nav], crossDomainLinks := [], sameHostLinks := [] }

def c5pageNew : PageModel :=
  { clickables := [.newPage c5new], crossDomainLinks := [], sameHostLinks := [] }

def c6seed : String := "https://c6.example/"

def c6company : Company := { name := "c6", url := c6seed }

/-- A page whose (model-level) anchor candidate resolves back to the seed
URL itself and passes the brand-token check. -/
def c6web : String → PageModel := fun u =>
  if u = c6seed then { clickables := [], crossDomainLinks := [c6seed], sameHostLinks := [] }
  else emptyPage

def c6rec : ResultRecord := (findCompanyServices [c6company] c6web).headD ⟨"", [], []⟩

def c10seed : String := "https://c10seed.example/"

def c10child : String := "https://c10child.example/"

def c10cross : String := "https://c10partner.example/"

def c10company : Company := { name := "", url := c10seed }

def c10reqSeed : Request := initialRequest c10company

/-- A `child` request inheriting the empty company name. -/
def c10childReq : Request :=
  { url := c10child,
    userData := { label := some "child", parentUrl := some c10seed,
                  originalDomain := some "c10seed.example", companyName := some "" } }

def c10page : PageModel :=
  { clickables := [], crossDomainLinks := [c10cross], sameHostLinks := [] }

/-! ## Registry lemmas -/

theorem regLookup_set (r : Registry) (k : String) (v : List String) (k' : String) :
    regLookup (regSet r k v) k' = if k = k' then some v else regLookup r k' := by
  induction r with
  | nil => simp [regSet, regLookup]
  | cons hd tl ih =>
    obtain ⟨k0, w⟩ := hd
    by_cases h0 : k0 = k
    · subst h0
      simp only [regSet, if_pos rfl, regLookup]
      by_cases h1 : k0 = k'
      · subst h1; simp [regLookup]
      · simp [regLookup, h1]
    · simp only [regSet, if_neg h0, regLookup]
      by_cases h1 : k0 = k'
      · subst h1
        have hk : ¬ k = k0 := fun h => h0 h.symm
        simp [regLookup, if_neg hk]
      · simp [regLookup, h1, ih]

theorem regLookup_none_of_not_keys {r : Registry} {k : String}
    (h : k ∉ regKeys r) : regLookup r k = none := by
  induction r with
  | nil => rfl
  | cons hd tl ih =>
    obtain ⟨k0, w⟩ := hd
    simp only [regKeys, List.map_cons, List.mem_cons] at h
    push_neg at h
    have hne : ¬ k0 = k := fun he => h.1 he.symm
    simp only [regLookup, if_neg hne]
    exact ih h.2

theorem not_keys_of_regLookup_none {r : Registry} {k : String}
    (h : regLookup r k = none) : k ∉ regKeys r := by
  induction r with
  | nil => simp [regKeys]
  | cons hd tl ih =>
    obtain ⟨k0, w⟩ := hd
    simp only [regLookup] at h
    by_cases h0 : k0 = k
    · rw [if_pos h0] at h; exact absurd h (by simp)
    · rw [if_neg h0] at h
      simp only [regKeys, List.map_cons, List.mem_cons]
      push_neg
      exact ⟨fun hk => h0 hk.symm, ih h⟩

theorem regKeys_set_of_some {r : Registry} {k : String} {l : List String}
    (h : regLookup r k = some l) (v : List String) :
    regKeys (regSet r k v) = regKeys r := by
  induction r with
  | nil => simp [regLookup] at h
  | cons hd tl ih =>
    obtain ⟨k0, w⟩ := hd
    simp only [regLookup] at h
    by_cases h0 : k0 = k
    · subst h0; simp [regSet, regKeys]
    · rw [if_neg h0] at h
      have htl := ih h
      simp only [regKeys] at htl
      simp [regSet, if_neg h0, regKeys, htl]

/-- A lookup that was `none` stays `none` after a set of a *different*,
already-present key. -/
theorem regLookup_none_pushNewChecked {r r' : Registry} {k k' v : String}
    (hnone : regLookup r k = none)
    (h : pushNewChecked r k' v = some r') : regLookup r' k = none := by
  unfold pushNewChecked at h
  cases hl : regLookup r k' with
  | none => rw [hl] at h; exact absurd h (by simp)
  | some l =>
    rw [hl] at h
    have hne : k' ≠ k := fun he => by rw [he] at hl; rw [hl] at hnone; exact absurd hnone (by simp)
    by_cases hv : v ∈ l
    · simp only [if_pos hv, Option.some.injEq] at h
      rw [← h]; exact hnone
    · simp only [if_neg hv, Option.some.injEq] at h
      rw [← h, regLookup_set, if_neg hne]
      exact hnone

theorem pushNewChecked_isSome {r : Registry} {k : String} (v : String)
    (h : (regLookup r k).isSome = true) : (pushNewChecked r k v).isSome = true := by
  unfold pushNewChecked
  cases hl : regLookup r k with
  | none => rw [hl] at h; simp at h
  | some l => simp

theorem pushNewChecked_mem {r r' : Registry} {k v : String}
    (h : pushNewChecked r k v = some r') : v ∈ getList r' k := by
  unfold pushNewChecked at h
  cases hl : regLookup r k with
  | none => rw [hl] at h; exact absurd h (by simp)
  | some l =>
    rw [hl] at h
    by_cases hv : v ∈ l
    · simp only [if_pos hv, Option.some.injEq] at h
      rw [← h]; unfold getList; rw [hl]; exact hv
    · simp only [if_neg hv, Option.some.injEq] at h
      rw [← h]; unfold getList; rw [regLookup_set, if_pos rfl]
      simp

/-! ## Extension order on registries and states -/

theorem regExt_refl (r : Registry) : regExt r r := ⟨fun _ h => h, fun _ _ h => h⟩

theorem regExt_trans {a b c : Registry} (h1 : regExt a b) (h2 : regExt b c) :
    regExt a c :=
  ⟨fun k h => h2.1 k (h1.1 k h), fun k v h => h2.2 k v (h1.2 k v h)⟩

theorem regExt_set_append {r : Registry} {k : String} {l : List String}
    (h : regLookup r k = some l) (v : String) : regExt r (regSet r k (l ++ [v])) := by
  constructor
  · intro k' hk'
    rw [regLookup_set]
    by_cases he : k = k'
    · simp [he]
    · rw [if_neg he]; exact hk'
  · intro k' v' hv'
    unfold getList at hv' ⊢
    rw [regLookup_set]
    by_cases he : k = k'
    · subst he
      rw [h] at hv'
      simp only [Option.getD_some] at hv' ⊢
      exact List.mem_append_left _ hv'
    · rw [if_neg he]; exact hv'

theorem regExt_pushNewChecked {r r' : Registry} {k v : String}
    (h : pushNewChecked r k v = some r') : regExt r r' := by
  unfold pushNewChecked at h
  cases hl : regLookup r k with
  | none => rw [hl] at h; exact absurd h (by simp)
  | some l =>
    rw [hl] at h
    by_cases hv : v ∈ l
    · simp only [if_pos hv, Option.some.injEq] at h
      rw [← h]; exact regExt_refl r
    · simp only [if_neg hv, Option.some.injEq] at h
      rw [← h]; exact regExt_set_append hl v

theorem regExt_pushIfExists (r : Registry) (k v : String) :
    regExt r (pushIfExists r k v) := by
  unfold pushIfExists
  cases hl : regLookup r k with
  | none => exact regExt_refl r
  | some l =>
    show regExt r (if v ∈ l then r else regSet r k (l ++ [v]))
    by_cases hv : v ∈ l
    · rw [if_pos hv]; exact regExt_refl r
    · rw [if_neg hv]; exact regExt_set_append hl v

theorem regExt_ensureKey (r : Registry) (k : String) : regExt r (ensureKey r k) := by
  unfold ensureKey
  cases hl : regLookup r k with
  | some l => exact regExt_refl r
  | none =>
    constructor
    · intro k' hk'
      rw [regLookup_set]
      by_cases he : k = k'
      · simp [he]
      · rw [if_neg he]; exact hk'
    · intro k' v' hv'
      unfold getList at hv' ⊢
      rw [regLookup_set]
      by_cases he : k = k'
      · subst he; rw [hl] at hv'; simp at hv'
      · rw [if_neg he]; exact hv'

theorem regLookup_ensureKey_self (r : Registry) (k : String) :
    (regLookup (ensureKey r k) k).isSome = true := by
  unfold ensureKey
  cases hl : regLookup r k with
  | some l => simp [hl]
  | none => rw [regLookup_set]; simp

theorem stExt_refl (s : CrawlState) : stExt s s :=
  ⟨regExt_refl _, regExt_refl _, regExt_refl _⟩

theorem stExt_trans {a b c : CrawlState} (h1 : stExt a b) (h2 : stExt b c) : stExt a c :=
  ⟨regExt_trans h1.1 h2.1, regExt_trans h1.2.1 h2.2.1, regExt_trans h1.2.2 h2.2.2⟩

/-! ## Phase-level extension lemmas -/

theorem stExt_withExplored {st : CrawlState} {k v : String} {e : Registry}
    (h : pushNewChecked st.allExploredUrls k v = some e) :
    stExt st { st with allExploredUrls := e } :=
  ⟨regExt_refl _, regExt_pushNewChecked h, regExt_refl _⟩

theorem stExt_withPds {st : CrawlState} {k v : String} {e : Registry}
    (h : pushNewChecked st.potentialDifferentServices k v = some e) :
    stExt st { st with potentialDifferentServices := e } :=
  ⟨regExt_pushNewChecked h, regExt_refl _, regExt_refl _⟩

theorem stExt_withSuc {st : CrawlState} {k v : String} {e : Registry}
    (h : pushNewChecked st.startUrlChildren k v = some e) :
    stExt st { st with startUrlChildren := e } :=
  ⟨regExt_refl _, regExt_refl _, regExt_pushNewChecked h⟩

theorem probeStep_ext (url od cn : String) (isStart : Bool)
    (st : CrawlState) (o : ClickOutcome) :
    stExt st (probeStep url od cn isStart st o).1 := by
  cases o with
  | noNav => exact stExt_refl st
  | newPage u =>
    simp only [probeStep]
    split
    · exact stExt_refl st
    · split
      · exact stExt_refl st
      · rename_i e1 he1
        split
        · split
          · exact stExt_withExplored he1
          · rename_i p1 hp1
            split
            · exact stExt_trans (stExt_withExplored he1) (stExt_withPds hp1)
            · rename_i s1 hs1
              exact stExt_trans (stExt_trans (stExt_withExplored he1) (stExt_withPds hp1))
                (stExt_withSuc hs1)
        · exact stExt_withExplored he1
  | navTo u =>
    simp only [probeStep]
    split
    · exact stExt_refl st
    · split
      · exact stExt_refl st
      · rename_i e1 he1
        split
        · split
          · exact stExt_withExplored he1
          · rename_i p1 hp1
            exact stExt_trans (stExt_withExplored he1) (stExt_withPds hp1)
        · exact stExt_withExplored he1

theorem probePhase_ext (url od cn : String) (isStart : Bool)
    (st : CrawlState) (outs : List ClickOutcome) :
    stExt st (probePhase url od cn isStart st outs).1 := by
  induction outs generalizing st with
  | nil => exact stExt_refl st
  | cons o rest ih =>
    simp only [probePhase]
    exact stExt_trans (probeStep_ext url od cn isStart st o) (ih _)

theorem crossStep_ext (url od cn : String) (st : CrawlState) (t : String) :
    stExt st (crossStep url od cn st t).1 := by
  unfold crossStep
  split
  · exact stExt_refl st
  · split
    · split
      · exact stExt_refl st
      · rename_i e1 he1
        dsimp only
        split
        · exact stExt_withExplored he1
        · rename_i p1 hp1
          split
          · exact stExt_trans (stExt_withExplored he1) (stExt_withPds hp1)
          · rename_i s1 hs1
            exact stExt_trans (stExt_trans (stExt_withExplored he1) (stExt_withPds hp1))
              (stExt_withSuc hs1)
    · exact stExt_refl st

theorem crossPhase_ext (url od cn : String) (st : CrawlState) (links : List String) :
    stExt st (crossPhase url od cn st links).1 := by
  induction links generalizing st with
  | nil => exact stExt_refl st
  | cons t rest ih =>
    simp only [crossPhase]
    split
    · exact crossStep_ext url od cn st t
    · exact stExt_trans (crossStep_ext url od cn st t) (ih _)

theorem staticStep_ext (url od cn : String) (st : CrawlState) (t : String) :
    stExt st (staticStep url od cn st t).1 := by
  unfold staticStep
  split
  · exact stExt_refl st
  · split
    · exact stExt_refl st
    · rename_i e1 he1
      dsimp only
      split
      · split
        · exact stExt_withExplored he1
        · rename_i p1 hp1
          exact stExt_trans (stExt_withExplored he1) (stExt_withPds hp1)
      · exact stExt_withExplored he1

theorem staticPhase_ext (url od cn : String) (st : CrawlState) (links : List String) :
    stExt st (staticPhase url od cn st links).1 := by
  induction links generalizing st with
  | nil => exact stExt_refl st
  | cons t rest ih =>
    simp only [staticPhase]
    split
    · exact staticStep_ext url od cn st t
    · exact stExt_trans (staticStep_ext url od cn st t) (ih _)

theorem preState_ext (req : Request) (st0 : CrawlState) :
    stExt st0 (preState req st0) := by
  unfold preState
  have hA : stExt st0 { st0 with allExploredUrls := ensureKey st0.allExploredUrls req.url } :=
    ⟨regExt_refl _, regExt_ensureKey _ _, regExt_refl _⟩
  split
  · split
    · split
      · exact stExt_trans hA ⟨regExt_refl _, regExt_refl _, regExt_pushIfExists _ _ _⟩
      · exact hA
    · exact hA
  · exact hA

theorem requestHandler_ext (req : Request) (page : PageModel) (st0 : CrawlState) :
    stExt st0 (requestHandler req page st0).stAfterStatic := by
  have h1 := preState_ext req st0
  have h2 : stExt (preState req st0) (probeRes req page st0).1 := probePhase_ext _ _ _ _ _ _
  have h3 : stExt (probeRes req page st0).1 (crossRes req page st0).1 := crossPhase_ext _ _ _ _ _
  have h4 : stExt (crossRes req page st0).1 (staticRes req page st0).1 := by
    unfold staticRes
    dsimp only
    split
    · exact stExt_refl _
    · split
      · exact staticPhase_ext _ _ _ _ _
      · exact stExt_refl _
  exact stExt_trans (stExt_trans (stExt_trans h1 h2) h3) h4

/-- One unfolding of the crawl loop on a non-empty frontier. -/
theorem runCrawl_step (web : String → PageModel) (fuel : Nat) (st : CrawlState)
    (seen : List String) (r : Request) (rest : List Request)
    (tr : List (Request × PhaseLog)) :
    runCrawl web (Nat.succ fuel) ⟨st, seen, r :: rest, tr⟩ =
      runCrawl web fuel
        ⟨(requestHandler r (web r.url) st).stAfterStatic,
         (addMany seen rest ((requestHandler r (web r.url) st).probeEnq ++
            (requestHandler r (web r.url) st).crossEnq ++
            (requestHandler r (web r.url) st).staticEnq)).1,
         (addMany seen rest ((requestHandler r (web r.url) st).probeEnq ++
            (requestHandler r (web r.url) st).crossEnq ++
            (requestHandler r (web r.url) st).staticEnq)).2,
         tr ++ [(r, requestHandler r (web r.url) st)]⟩ := rfl

theorem runCrawl_ext (web : String → PageModel) (fuel : Nat) :
    ∀ rs : RunState, stExt rs.st (runCrawl web fuel rs).st := by
  induction fuel with
  | zero => intro rs; exact stExt_refl _
  | succ fuel ih =>
    intro rs
    obtain ⟨st, seen, front, tr⟩ := rs
    cases front with
    | nil => simp only [runCrawl]; exact stExt_refl _
    | cons r rest =>
      rw [runCrawl_step]
      exact stExt_trans (requestHandler_ext r (web r.url) st) (ih ⟨_, _, _, _⟩)

/-! ## Keys of `potentialDifferentServices` are never created by the handler -/

theorem pdsNone_probeStep (url od cn : String) (isStart : Bool)
    (st : CrawlState) (o : ClickOutcome) {k : String}
    (h : regLookup st.potentialDifferentServices k = none) :
    regLookup (probeStep url od cn isStart st o).1.potentialDifferentServices k = none := by
  cases o with
  | noNav => exact h
  | newPage u =>
    simp only [probeStep]
    split
    · exact h
    · split
      · exact h
      · rename_i e1 he1
        try dsimp only
        split
        · split
          · exact h
          · rename_i p1 hp1
            split
            · exact regLookup_none_pushNewChecked h hp1
            · exact regLookup_none_pushNewChecked h hp1
        · exact h
  | navTo u =>
    simp only [probeStep]
    split
    · exact h
    · split
      · exact h
      · rename_i e1 he1
        try dsimp only
        split
        · split
          · exact h
          · rename_i p1 hp1
            exact regLookup_none_pushNewChecked h hp1
        · exact h

theorem pdsNone_probePhase (url od cn : String) (isStart : Bool)
    (st : CrawlState) (outs : List ClickOutcome) {k : String}
    (h : regLookup st.potentialDifferentServices k = none) :
    regLookup (probePhase url od cn isStart st outs).1.potentialDifferentServices k = none := by
  induction outs generalizing st with
  | nil => exact h
  | cons o rest ih =>
    simp only [probePhase]
    exact ih _ (pdsNone_probeStep url od cn isStart st o h)

theorem pdsNone_crossStep (url od cn : String) (st : CrawlState) (t : String) {k : String}
    (h : regLookup st.potentialDifferentServices k = none) :
    regLookup (crossStep url od cn st t).1.potentialDifferentServices k = none := by
  unfold crossStep
  split
  · exact h
  · split
    · split
      · exact h
      · rename_i e1 he1
        try dsimp only
        split
        · exact h
        · rename_i p1 hp1
          split
          · exact regLookup_none_pushNewChecked h hp1
          · exact regLookup_none_pushNewChecked h hp1
    · exact h

theorem pdsNone_crossPhase (url od cn : String) (st : CrawlState)
    (links : List String) {k : String}
    (h : regLookup st.potentialDifferentServices k = none) :
    regLookup (crossPhase url od cn st links).1.potentialDifferentServices k = none := by
  induction links generalizing st with
  | nil => exact h
  | cons t rest ih =>
    simp only [crossPhase]
    split
    · exact pdsNone_crossStep url od cn st t h
    · exact ih _ (pdsNone_crossStep url od cn st t h)

theorem pdsNone_staticStep (url od cn : String) (st : CrawlState) (t : String) {k : String}
    (h : regLookup st.potentialDifferentServices k = none) :
    regLookup (staticStep url od cn st t).1.potentialDifferentServices k = none := by
  unfold staticStep
  split
  · exact h
  · split
    · exact h
    · rename_i e1 he1
      try dsimp only
      split
      · split
        · exact h
        · rename_i p1 hp1
          exact regLookup_none_pushNewChecked h hp1
      · exact h

theorem pdsNone_staticPhase (url od cn : String) (st : CrawlState)
    (links : List String) {k : String}
    (h : regLookup st.potentialDifferentServices k = none) :
    regLookup (staticPhase url od cn st links).1.potentialDifferentServices k = none := by
  induction links generalizing st with
  | nil => exact h
  | cons t rest ih =>
    simp only [staticPhase]
    split
    · exact pdsNone_staticStep url od cn st t h
    · exact ih _ (pdsNone_staticStep url od cn st t h)

theorem preState_pds (req : Request) (st0 : CrawlState) :
    (preState req st0).potentialDifferentServices = st0.potentialDifferentServices := by
  unfold preState
  split
  · split
    · split
      · rfl
      · rfl
    · rfl
  · rfl

theorem pdsNone_requestHandler (req : Request) (page : PageModel)
    (st0 : CrawlState) {k : String}
    (h : regLookup st0.potentialDifferentServices k = none) :
    regLookup (requestHandler req page st0).stAfterStatic.potentialDifferentServices k = none := by
  have h1 : regLookup (preState req st0).potentialDifferentServices k = none := by
    rw [preState_pds]; exact h
  have h2 : regLookup (probeRes req page st0).1.potentialDifferentServices k = none :=
    pdsNone_probePhase _ _ _ _ _ _ h1
  have h3 : regLookup (crossRes req page st0).1.potentialDifferentServices k = none :=
    pdsNone_crossPhase _ _ _ _ _ h2
  show regLookup (staticRes req page st0).1.potentialDifferentServices k = none
  unfold staticRes
  dsimp only
  split
  · exact h3
  · split
    · exact pdsNone_staticPhase _ _ _ _ _ h3
    · exact h3

/-! ## Child requests never enqueue from extraction (claim C3 machinery) -/

theorem probeStep_notStart (url od cn : String) (st : CrawlState) (o : ClickOutcome) :
    (probeStep url od cn false st o).1.potentialDifferentServices = st.potentialDifferentServices ∧
    (probeStep url od cn false st o).1.startUrlChildren = st.startUrlChildren ∧
    (probeStep url od cn false st o).2 = [] := by
  cases o with
  | noNav => exact ⟨rfl, rfl, rfl⟩
  | newPage u =>
    simp only [probeStep]
    split
    · exact ⟨rfl, rfl, rfl⟩
    · split
      · exact ⟨rfl, rfl, rfl⟩
      · exact ⟨rfl, rfl, rfl⟩
  | navTo u =>
    simp only [probeStep]
    split
    · exact ⟨rfl, rfl, rfl⟩
    · split
      · exact ⟨rfl, rfl, rfl⟩
      · exact ⟨rfl, rfl, rfl⟩

theorem probePhase_notStart (url od cn : String) (st : CrawlState) (outs : List ClickOutcome) :
    (probePhase url od cn false st outs).1.potentialDifferentServices = st.potentialDifferentServices ∧
    (probePhase url od cn false st outs).1.startUrlChildren = st.startUrlChildren ∧
    (probePhase url od cn false st outs).2 = [] := by
  induction outs generalizing st with
  | nil => exact ⟨rfl, rfl, rfl⟩
  | cons o rest ih =>
    simp only [probePhase]
    obtain ⟨h1, h2, h3⟩ := probeStep_notStart url od cn st o
    obtain ⟨h4, h5, h6⟩ := ih (probeStep url od cn false st o).1
    refine ⟨by rw [h4, h1], by rw [h5, h2], ?_⟩
    rw [h3, h6]
    rfl

theorem crossStep_pdsNoneAt (url od cn : String) (st : CrawlState) (t : String)
    (h : regLookup st.potentialDifferentServices url = none) :
    (crossStep url od cn st t).1.potentialDifferentServices = st.potentialDifferentServices ∧
    (crossStep url od cn st t).1.startUrlChildren = st.startUrlChildren ∧
    (crossStep url od cn st t).2.1 = [] := by
  have hpn : pushNewChecked st.potentialDifferentServices url t = none := by
    unfold pushNewChecked; rw [h]
  unfold crossStep
  split
  · exact ⟨rfl, rfl, rfl⟩
  · split
    · split
      · exact ⟨rfl, rfl, rfl⟩
      · rename_i e1 he1
        try dsimp only
        split
        · exact ⟨rfl, rfl, rfl⟩
        · rename_i p1 hp1
          exact absurd (hpn.symm.trans hp1) (by simp)
    · exact ⟨rfl, rfl, rfl⟩

theorem crossPhase_pdsNoneAt (url od cn : String) (st : CrawlState) (links : List String)
    (h : regLookup st.potentialDifferentServices url = none) :
    (crossPhase url od cn st links).1.potentialDifferentServices = st.potentialDifferentServices ∧
    (crossPhase url od cn st links).1.startUrlChildren = st.startUrlChildren ∧
    (crossPhase url od cn st links).2.1 = [] := by
  induction links generalizing st with
  | nil => exact ⟨rfl, rfl, rfl⟩
  | cons t rest ih =>
    simp only [crossPhase]
    obtain ⟨h1, h2, h3⟩ := crossStep_pdsNoneAt url od cn st t h
    split
    · exact ⟨h1, h2, h3⟩
    · have h' : regLookup (crossStep url od cn st t).1.potentialDifferentServices url = none := by
        rw [h1]; exact h
      obtain ⟨h4, h5, h6⟩ := ih _ h'
      refine ⟨by rw [h4, h1], by rw [h5, h2], ?_⟩
      show ((crossPhase url od cn (crossStep url od cn st t).1 rest).1,
        (crossStep url od cn st t).2.1 ++ (crossPhase url od cn (crossStep url od cn st t).1 rest).2.1,
        (crossPhase url od cn (crossStep url od cn st t).1 rest).2.2).2.1 = []
      rw [show ((crossPhase url od cn (crossStep url od cn st t).1 rest).1,
        (crossStep url od cn st t).2.1 ++ (crossPhase url od cn (crossStep url od cn st t).1 rest).2.1,
        (crossPhase url od cn (crossStep url od cn st t).1 rest).2.2).2.1 =
          (crossStep url od cn st t).2.1 ++ (crossPhase url od cn (crossStep url od cn st t).1 rest).2.1 from rfl]
      rw [h3, h6]
      rfl

theorem requestHandler_child (req : Request) (page : PageModel) (st0 : CrawlState)
    (hlab : resolvedLabel req = "child")
    (hpds : regLookup st0.potentialDifferentServices req.url = none) :
    childClean (req, requestHandler req page st0) := by
  intro _
  have hb : (decide (resolvedLabel req = "start")) = false := by
    rw [hlab]; rfl
  have hpre : regLookup (preState req st0).potentialDifferentServices req.url = none := by
    rw [preState_pds]; exact hpds
  have hprobe := probePhase_notStart req.url (reqOriginalDomain req) (reqCompanyName req)
    (preState req st0) page.clickables
  have hprobeRes : probeRes req page st0 =
      probePhase req.url (reqOriginalDomain req) (reqCompanyName req) false
        (preState req st0) page.clickables := by
    unfold probeRes; rw [hb]
  have hpdsProbe : regLookup (probeRes req page st0).1.potentialDifferentServices req.url = none := by
    rw [hprobeRes, hprobe.1]; exact hpre
  have hcross := crossPhase_pdsNoneAt req.url (reqOriginalDomain req) (reqCompanyName req)
    (probeRes req page st0).1 page.crossDomainLinks hpdsProbe
  have hstatic : staticRes req page st0 = ((crossRes req page st0).1, [], false) := by
    unfold staticRes
    dsimp only
    rw [hlab]
    by_cases hc : (crossRes req page st0).2.2 = true
    · rw [if_pos hc]
    · rw [if_neg hc, if_neg (by decide : ¬("child" = "start"))]
  refine ⟨?_, ?_, ?_, ?_, ?_, ?_⟩
  · show (probeRes req page st0).2 = []
    rw [hprobeRes]; exact hprobe.2.2
  · show (crossRes req page st0).2.1 = []
    exact hcross.2.2
  · show (staticRes req page st0).2.1 = []
    rw [hstatic]
  · show (crossRes req page st0).1.potentialDifferentServices =
      (probeRes req page st0).1.potentialDifferentServices
    exact hcross.1
  · show (crossRes req page st0).1.startUrlChildren =
      (probeRes req page st0).1.startUrlChildren
    exact hcross.2.1
  · show (staticRes req page st0).1 = (crossRes req page st0).1
    rw [hstatic]

/-! ## Queue lemmas -/

theorem addMany_seen_mono (reqs : List Request) :
    ∀ (seen : List String) (front : List Request) (x : String),
      x ∈ seen → x ∈ (addMany seen front reqs).1 := by
  induction reqs with
  | nil => intro seen front x hx; exact hx
  | cons q rest ih =>
    intro seen front x hx
    simp only [addMany]
    split
    · exact ih _ _ x hx
    · exact ih _ _ x (List.mem_append_left _ hx)

theorem addMany_url_mem_seen (reqs : List Request) :
    ∀ (seen : List String) (front : List Request) (r : Request),
      r ∈ reqs → r.url ∈ (addMany seen front reqs).1 := by
  induction reqs with
  | nil => intro seen front r hr; exact absurd hr (List.not_mem_nil r)
  | cons q rest ih =>
    intro seen front r hr
    simp only [addMany]
    rcases List.mem_cons.mp hr with h | h
    · subst h
      split
      · exact addMany_seen_mono rest _ _ _ (by assumption)
      · exact addMany_seen_mono rest _ _ _ (List.mem_append_right _ (by simp))
    · split
      · exact ih _ _ r h
      · exact ih _ _ r h

theorem addMany_front_mem (reqs : List Request) :
    ∀ (seen : List String) (front : List Request) (r : Request),
      r ∈ (addMany seen front reqs).2 → r ∈ front ∨ (r ∈ reqs ∧ r.url ∉ seen) := by
  induction reqs with
  | nil => intro seen front r hr; exact Or.inl hr
  | cons q rest ih =>
    intro seen front r hr
    simp only [addMany] at hr
    by_cases hq : q.url ∈ seen
    · rw [if_pos hq] at hr
      rcases ih _ _ r hr with h | ⟨h1, h2⟩
      · exact Or.inl h
      · exact Or.inr ⟨List.mem_cons_of_mem _ h1, h2⟩
    · rw [if_neg hq] at hr
      rcases ih _ _ r hr with h | ⟨h1, h2⟩
      · rcases List.mem_append.mp h with h | h
        · exact Or.inl h
        · rw [List.mem_singleton] at h
          subst h
          exact Or.inr ⟨List.mem_cons_self _ _, hq⟩
      · refine Or.inr ⟨List.mem_cons_of_mem _ h1, fun hs => h2 (List.mem_append_left _ hs)⟩

/-! ## The C3 invariant over a run -/

theorem runCrawl_invC3 (web : String → PageModel) (fuel : Nat) :
    ∀ rs : RunState, InvC3 rs → InvC3 (runCrawl web fuel rs) := by
  induction fuel with
  | zero => intro rs h; exact h
  | succ fuel ih =>
    intro rs hInv
    obtain ⟨st, seen, front, tr⟩ := rs
    cases front with
    | nil => simpa only [runCrawl] using hInv
    | cons r rest =>
      rw [runCrawl_step]
      apply ih
      refine ⟨?_, ?_, ?_⟩
      · intro k hk
        by_cases hks : k ∈ seen
        · exact addMany_seen_mono _ _ _ k hks
        · exfalso
          have hnone : regLookup st.potentialDifferentServices k = none := by
            cases hl : regLookup st.potentialDifferentServices k with
            | none => rfl
            | some l => exact absurd (hInv.1 k (by rw [hl]; rfl)) hks
          have hafter := pdsNone_requestHandler r (web r.url) st hnone
          rw [hafter] at hk
          exact absurd hk (by simp)
      · intro r' hr' hlab'
        rcases addMany_front_mem _ _ _ r' hr' with h | ⟨h1, h2⟩
        · exact pdsNone_requestHandler r (web r.url) st
            (hInv.2.1 r' (List.mem_cons_of_mem _ h) hlab')
        · apply pdsNone_requestHandler
          cases hl : regLookup st.potentialDifferentServices r'.url with
          | none => rfl
          | some l => exact absurd (hInv.1 r'.url (by rw [hl]; rfl)) h2
      · intro e he
        rcases List.mem_append.mp he with h | h
        · exact hInv.2.2 e h
        · rw [List.mem_singleton] at h
          subst h
          by_cases hlab : resolvedLabel r = "child"
          · exact requestHandler_child r (web r.url) st hlab
              (hInv.2.1 r (List.mem_cons_self _ _) hlab)
          · intro hc; exact absurd hc hlab

theorem foldl_init_pds_some :
    ∀ (cs : List Company) (st0 : CrawlState) (k : String),
      (regLookup (cs.foldl
        (fun st c =>
          { st with
            startUrlChildren := regSet st.startUrlChildren c.url [],
            potentialDifferentServices := regSet st.potentialDifferentServices c.url [] })
        st0).potentialDifferentServices k).isSome = true →
      (regLookup st0.potentialDifferentServices k).isSome = true ∨ k ∈ cs.map Company.url := by
  intro cs
  induction cs with
  | nil => intro st0 k hk; exact Or.inl hk
  | cons c rest ih =>
    intro st0 k hk
    simp only [List.foldl_cons] at hk
    rcases ih _ k hk with h1 | h1
    · by_cases hce : c.url = k
      · refine Or.inr ?_
        simp only [List.map_cons, List.mem_cons]
        exact Or.inl hce.symm
      · rw [show ({ st0 with
            startUrlChildren := regSet st0.startUrlChildren c.url [],
            potentialDifferentServices := regSet st0.potentialDifferentServices c.url [] } :
              CrawlState).potentialDifferentServices =
            regSet st0.potentialDifferentServices c.url [] from rfl,
          regLookup_set, if_neg hce] at h1
        exact Or.inl h1
    · exact Or.inr (by simp only [List.map_cons, List.mem_cons]; exact Or.inr h1)

theorem initState_pds_some (companies : List Company) (k : String)
    (hk : (regLookup (initState companies).potentialDifferentServices k).isSome = true) :
    k ∈ companies.map Company.url := by
  unfold initState at hk
  rcases foldl_init_pds_some companies _ k hk with h1 | h1
  · exact absurd h1 (by simp [regLookup])
  · exact h1

theorem invC3_initial (companies : List Company) :
    InvC3 ⟨initState companies,
           (addMany [] [] (initialRequests companies)).1,
           (addMany [] [] (initialRequests companies)).2,
           []⟩ := by
  refine ⟨?_, ?_, ?_⟩
  · intro k hk
    have hmem := initState_pds_some companies k hk
    rw [List.mem_map] at hmem
    obtain ⟨c, hc, hck⟩ := hmem
    have h1 : initialRequest c ∈ initialRequests companies :=
      List.mem_map_of_mem _ hc
    have h2 := addMany_url_mem_seen (initialRequests companies) [] [] (initialRequest c) h1
    rw [← hck]; exact h2
  · intro r hr hlab
    rcases addMany_front_mem _ _ _ r hr with h | ⟨h1, h2⟩
    · exact absurd h (List.not_mem_nil r)
    · rw [initialRequests, List.mem_map] at h1
      obtain ⟨c, hc, hrc⟩ := h1
      rw [← hrc] at hlab
      have hstart : resolvedLabel (initialRequest c) = "start" := rfl
      rw [hstart] at hlab
      exact absurd hlab (by decide)
  · intro e he; exact absurd he (List.not_mem_nil e)

/-! ## Claim C2: where explored URLs are recorded -/

/-- C2 (amended): for a single-company run, the output record's
`allExploredUrls` contains every URL recorded while processing the seed
request itself — the entries under the seed's own key.  (As the
counterexample shows, URLs observed while processing child requests are
keyed under the child's URL and are absent from the seed's output.) -/
theorem c2_amended_seed_key_explored (c : Company) (web : String → PageModel) (u : String)
    (h : u ∈ seedStepExplored c web) :
    u ∈ (firstResult (findCompanyServices [c] web)).allExploredUrls := by
  show u ∈ getList (findCompanyServicesRun [c] web MAX_REQUESTS_PER_CRAWL).st.allExploredUrls c.url
  show u ∈ getList (runCrawl web MAX_REQUESTS_PER_CRAWL
    ⟨initState [c], [(initialRequest c).url], [initialRequest c], []⟩).st.allExploredUrls c.url
  rw [show MAX_REQUESTS_PER_CRAWL = Nat.succ 99 from rfl, runCrawl_step]
  exact (runCrawl_ext web 99 _).2.1.2 c.url u h

/-! ## Claim C5: what the probing loop records and enqueues on seed requests -/

theorem probeStep_start_newPage (url od cn u : String) (st : CrawlState)
    (he : (regLookup st.allExploredUrls url).isSome = true)
    (hp : (regLookup st.potentialDifferentServices url).isSome = true)
    (hne : u ≠ url) :
    u ∈ getList (probeStep url od cn true st (.newPage u)).1.allExploredUrls url ∧
    u ∈ getList (probeStep url od cn true st (.newPage u)).1.potentialDifferentServices url ∧
    (probeStep url od cn true st (.newPage u)).2 = [childReq u url od cn] := by
  simp only [probeStep, if_neg hne]
  cases hpe : pushNewChecked st.allExploredUrls url u with
  | none =>
    exfalso
    have hsome := pushNewChecked_isSome u he
    rw [hpe] at hsome
    exact absurd hsome (by simp)
  | some e1 =>
    dsimp only
    rw [if_pos trivial]
    cases hpp : pushNewChecked st.potentialDifferentServices url u with
    | none =>
      exfalso
      have hsome := pushNewChecked_isSome u hp
      rw [hpp] at hsome
      exact absurd hsome (by simp)
    | some p1 =>
      dsimp only
      cases hps : pushNewChecked st.startUrlChildren url u with
      | none => exact ⟨pushNewChecked_mem hpe, pushNewChecked_mem hpp, rfl⟩
      | some s1 => exact ⟨pushNewChecked_mem hpe, pushNewChecked_mem hpp, rfl⟩

theorem probeStep_start_navTo (url od cn u : String) (st : CrawlState)
    (he : (regLookup st.allExploredUrls url).isSome = true)
    (hp : (regLookup st.potentialDifferentServices url).isSome = true)
    (hne : u ≠ url) :
    u ∈ getList (probeStep url od cn true st (.navTo u)).1.allExploredUrls url ∧
    u ∈ getList (probeStep url od cn true st (.navTo u)).1.potentialDifferentServices url := by
  simp only [probeStep, if_neg hne]
  cases hpe : pushNewChecked st.allExploredUrls url u with
  | none =>
    exfalso
    have hsome := pushNewChecked_isSome u he
    rw [hpe] at hsome
    exact absurd hsome (by simp)
  | some e1 =>
    dsimp only
    rw [if_pos trivial]
    cases hpp : pushNewChecked st.potentialDifferentServices url u with
    | none =>
      exfalso
      have hsome := pushNewChecked_isSome u hp
      rw [hpp] at hsome
      exact absurd hsome (by simp)
    | some p1 => exact ⟨pushNewChecked_mem hpe, pushNewChecked_mem hpp⟩

theorem probePhase_start_spec (url od cn : String) (outs : List ClickOutcome) :
    ∀ st : CrawlState,
      (regLookup st.allExploredUrls url).isSome = true →
      (regLookup st.potentialDifferentServices url).isSome = true →
      (∀ u, ClickOutcome.newPage u ∈ outs → u ≠ url →
        u ∈ getList (probePhase url od cn true st outs).1.allExploredUrls url ∧
        u ∈ getList (probePhase url od cn true st outs).1.potentialDifferentServices url ∧
        childReq u url od cn ∈ (probePhase url od cn true st outs).2) ∧
      (∀ u, ClickOutcome.navTo u ∈ outs → u ≠ url →
        u ∈ getList (probePhase url od cn true st outs).1.allExploredUrls url ∧
        u ∈ getList (probePhase url od cn true st outs).1.potentialDifferentServices url) := by
  induction outs with
  | nil =>
    intro st he hp
    exact ⟨fun u hu => absurd hu (List.not_mem_nil _),
           fun u hu => absurd hu (List.not_mem_nil _)⟩
  | cons o rest ih =>
    intro st he hp
    have hstep := probeStep_ext url od cn true st o
    have he' := hstep.2.1.1 url he
    have hp' := hstep.1.1 url hp
    obtain ⟨ihN, ihV⟩ := ih (probeStep url od cn true st o).1 he' hp'
    have hrest := probePhase_ext url od cn true (probeStep url od cn true st o).1 rest
    constructor
    · intro u hu hne
      rcases List.mem_cons.mp hu with hh | ht
      · subst hh
        obtain ⟨m1, m2, m3⟩ := probeStep_start_newPage url od cn u st he hp hne
        simp only [probePhase]
        refine ⟨hrest.2.1.2 url u m1, hrest.1.2 url u m2, ?_⟩
        rw [m3]
        exact List.mem_append_left _ (by simp)
      · obtain ⟨m1, m2, m3⟩ := ihN u ht hne
        simp only [probePhase]
        exact ⟨m1, m2, List.mem_append_right _ m3⟩
    · intro u hu hne
      rcases List.mem_cons.mp hu with hh | ht
      · subst hh
        obtain ⟨m1, m2⟩ := probeStep_start_navTo url od cn u st he hp hne
        simp only [probePhase]
        exact ⟨hrest.2.1.2 url u m1, hrest.1.2 url u m2⟩
      · obtain ⟨m1, m2⟩ := ihV u ht hne
        simp only [probePhase]
        exact ⟨m1, m2⟩

/-- For a `start` request the entry bookkeeping only ensures the explored
entry; it never touches `startUrlChildren`. -/
theorem preState_of_start (req : Request) (st0 : CrawlState)
    (hlab : resolvedLabel req = "start") :
    preState req st0 = { st0 with allExploredUrls := ensureKey st0.allExploredUrls req.url } := by
  unfold preState
  rw [hlab]
  rw [if_neg (by decide : ¬("start" : String) = "child")]

/-- C5 (amended): for a `start`-labelled request whose URL has a
`potentialDifferentServices` entry, every URL the interaction prober
resolves in a new browsing context (differing from the page's URL) is
recorded as explored, recorded as a discovered service, and submitted for
enqueueing as a `child` request inheriting the request's metadata; a URL
resolved by in-place navigation is recorded as explored and as a
discovered service, but (per the counterexample) not enqueued. -/
theorem c5_amended_prober_recording (req : Request) (page : PageModel) (st0 : CrawlState)
    (hlab : resolvedLabel req = "start")
    (hp : (regLookup st0.potentialDifferentServices req.url).isSome = true) :
    (∀ u, ClickOutcome.newPage u ∈ page.clickables → u ≠ req.url →
      u ∈ getList (requestHandler req page st0).stAfterProbe.allExploredUrls req.url ∧
      u ∈ getList (requestHandler req page st0).stAfterProbe.potentialDifferentServices req.url ∧
      childReq u req.url (reqOriginalDomain req) (reqCompanyName req) ∈
        (requestHandler req page st0).probeEnq) ∧
    (∀ u, ClickOutcome.navTo u ∈ page.clickables → u ≠ req.url →
      u ∈ getList (requestHandler req page st0).stAfterProbe.allExploredUrls req.url ∧
      u ∈ getList (requestHandler req page st0).stAfterProbe.potentialDifferentServices req.url) := by
  have hb : (decide (resolvedLabel req = "start")) = true := by rw [hlab]; rfl
  have hpre := preState_of_start req st0 hlab
  have he1 : (regLookup (preState req st0).allExploredUrls req.url).isSome = true := by
    rw [hpre]
    exact regLookup_ensureKey_self st0.allExploredUrls req.url
  have hp1 : (regLookup (preState req st0).potentialDifferentServices req.url).isSome = true := by
    rw [preState_pds]
    exact hp
  have hspec := probePhase_start_spec req.url (reqOriginalDomain req) (reqCompanyName req)
    page.clickables (preState req st0) he1 hp1
  have hres : probeRes req page st0 =
      probePhase req.url (reqOriginalDomain req) (reqCompanyName req) true
        (preState req st0) page.clickables := by
    unfold probeRes
    rw [hb]
  constructor
  · intro u hu hne
    obtain ⟨m1, m2, m3⟩ := hspec.1 u hu hne
    refine ⟨?_, ?_, ?_⟩
    · show u ∈ getList (probeRes req page st0).1.allExploredUrls req.url
      rw [hres]; exact m1
    · show u ∈ getList (probeRes req page st0).1.potentialDifferentServices req.url
      rw [hres]; exact m2
    · show childReq u req.url (reqOriginalDomain req) (reqCompanyName req) ∈ (probeRes req page st0).2
      rw [hres]; exact m3
  · intro u hu hne
    obtain ⟨m1, m2⟩ := hspec.2 u hu hne
    constructor
    · show u ∈ getList (probeRes req page st0).1.allExploredUrls req.url
      rw [hres]; exact m1
    · show u ∈ getList (probeRes req page st0).1.potentialDifferentServices req.url
      rw [hres]; exact m2

/-! ## Claim C10: the brand-token check with an initialized registry -/

theorem jsIncludes_empty (s : String) : jsIncludes s "" = true := by
  unfold jsIncludes
  show containsSeq [] s.toList = true
  cases s.toList with
  | nil => rfl
  | cons c rest => rfl

theorem crossStep_start_match (url od cn t : String) (st : CrawlState)
    (he : (regLookup st.allExploredUrls url).isSome = true)
    (hp : (regLookup st.potentialDifferentServices url).isSome = true)
    (hs : (regLookup st.startUrlChildren url).isSome = true)
    (hex : shouldExcludeUrl t = false)
    (hinc : jsIncludes (lowerStr t) cn = true) :
    t ∈ getList (crossStep url od cn st t).1.allExploredUrls url ∧
    t ∈ getList (crossStep url od cn st t).1.potentialDifferentServices url ∧
    (crossStep url od cn st t).2.1 = [childReq t url od cn] ∧
    (crossStep url od cn st t).2.2 = false := by
  unfold crossStep
  rw [if_neg (by rw [hex]; simp), if_pos hinc]
  cases hpe : pushNewChecked st.allExploredUrls url t with
  | none =>
    exfalso
    have hsome := pushNewChecked_isSome t he
    rw [hpe] at hsome
    exact absurd hsome (by simp)
  | some e1 =>
    dsimp only
    cases hpp : pushNewChecked st.potentialDifferentServices url t with
    | none =>
      exfalso
      have hsome := pushNewChecked_isSome t hp
      rw [hpp] at hsome
      exact absurd hsome (by simp)
    | some p1 =>
      dsimp only
      cases hps : pushNewChecked st.startUrlChildren url t with
      | none =>
        exfalso
        have hsome := pushNewChecked_isSome t hs
        rw [hps] at hsome
        exact absurd hsome (by simp)
      | some s1 => exact ⟨pushNewChecked_mem hpe, pushNewChecked_mem hpp, rfl, rfl⟩

theorem crossStep_start_noerr (url od cn t : String) (st : CrawlState)
    (he : (regLookup st.allExploredUrls url).isSome = true)
    (hp : (regLookup st.potentialDifferentServices url).isSome = true)
    (hs : (regLookup st.startUrlChildren url).isSome = true) :
    (crossStep url od cn st t).2.2 = false := by
  unfold crossStep
  split
  · rfl
  · split
    · rename_i hex0 hinc0
      have := crossStep_start_match url od cn t st he hp hs
        (by revert hex0; cases shouldExcludeUrl t <;> simp) hinc0
      revert this
      unfold crossStep
      rw [if_neg hex0, if_pos hinc0]
      exact fun h => h.2.2.2
    · rfl

theorem crossPhase_start_spec (url od cn : String) (links : List String) :
    ∀ st : CrawlState,
      (regLookup st.allExploredUrls url).isSome = true →
      (regLookup st.potentialDifferentServices url).isSome = true →
      (regLookup st.startUrlChildren url).isSome = true →
      ∀ t ∈ links, shouldExcludeUrl t = false → jsIncludes (lowerStr t) cn = true →
        t ∈ getList (crossPhase url od cn st links).1.allExploredUrls url ∧
        t ∈ getList (crossPhase url od cn st links).1.potentialDifferentServices url ∧
        childReq t url od cn ∈ (crossPhase url od cn st links).2.1 := by
  induction links with
  | nil => intro st he hp hs t ht; exact absurd ht (List.not_mem_nil _)
  | cons q rest ih =>
    intro st he hp hs t ht hex hinc
    have hnoerr := crossStep_start_noerr url od cn q st he hp hs
    have hqext := crossStep_ext url od cn st q
    have he' := hqext.2.1.1 url he
    have hp' := hqext.1.1 url hp
    have hs' := hqext.2.2.1 url hs
    have hrest := crossPhase_ext url od cn (crossStep url od cn st q).1 rest
    simp only [crossPhase]
    rw [if_neg (by rw [hnoerr]; simp)]
    rcases List.mem_cons.mp ht with hh | htl
    · subst hh
      obtain ⟨m1, m2, m3, _⟩ := crossStep_start_match url od cn t st he hp hs hex hinc
      refine ⟨hrest.2.1.2 url t m1, hrest.1.2 url t m2, ?_⟩
      rw [m3]
      exact List.mem_append_left _ (by simp)
    · obtain ⟨m1, m2, m3⟩ := ih (crossStep url od cn st q).1 he' hp' hs' t htl hex hinc
      exact ⟨m1, m2, List.mem_append_right _ m3⟩

theorem requestHandler_cross_spec (req : Request) (page : PageModel) (st0 : CrawlState)
    (hlab : resolvedLabel req = "start")
    (hp : (regLookup st0.potentialDifferentServices req.url).isSome = true)
    (hs : (regLookup st0.startUrlChildren req.url).isSome = true)
    (t : String) (ht : t ∈ page.crossDomainLinks)
    (hex : shouldExcludeUrl t = false)
    (hinc : jsIncludes (lowerStr t) (reqCompanyName req) = true) :
    t ∈ getList (requestHandler req page st0).stAfterCross.allExploredUrls req.url ∧
    t ∈ getList (requestHandler req page st0).stAfterCross.potentialDifferentServices req.url ∧
    childReq t req.url (reqOriginalDomain req) (reqCompanyName req) ∈
      (requestHandler req page st0).crossEnq := by
  have hpre := preState_of_start req st0 hlab
  have he1 : (regLookup (preState req st0).allExploredUrls req.url).isSome = true := by
    rw [hpre]
    exact regLookup_ensureKey_self st0.allExploredUrls req.url
  have hp1 : (regLookup (preState req st0).potentialDifferentServices req.url).isSome = true := by
    rw [preState_pds]
    exact hp
  have hs1 : (regLookup (preState req st0).startUrlChildren req.url).isSome = true := by
    rw [hpre]
    exact hs
  have hprobe := probePhase_ext req.url (reqOriginalDomain req) (reqCompanyName req)
    (decide (resolvedLabel req = "start")) (preState req st0) page.clickables
  have he2 := hprobe.2.1.1 req.url he1
  have hp2 := hprobe.1.1 req.url hp1
  have hs2 := hprobe.2.2.1 req.url hs1
  have hspec := crossPhase_start_spec req.url (reqOriginalDomain req) (reqCompanyName req)
    page.crossDomainLinks (probeRes req page st0).1 he2 hp2 hs2 t ht hex hinc
  exact hspec

/-! ## String lemmas for claims C8 and C9 -/

theorem stringExt {a b : String} (h : a.toList = b.toList) : a = b := by
  cases a
  cases b
  exact congrArg String.mk h

theorem stringToList_append (a b : String) : (a ++ b).toList = a.toList ++ b.toList := by
  cases a
  cases b
  rfl

theorem startsSeq_iff (a : List Char) : ∀ b, startsSeq a b = true ↔ ∃ t, b = a ++ t := by
  induction a with
  | nil =>
    intro b
    simp only [startsSeq, List.nil_append]
    exact ⟨fun _ => ⟨b, rfl⟩, fun _ => trivial⟩
  | cons x xs ih =>
    intro b
    cases b with
    | nil =>
      simp only [startsSeq]
      constructor
      · intro h; exact absurd h (by simp)
      · rintro ⟨t, ht⟩
        exact absurd ht (by simp)
    | cons y ys =>
      simp only [startsSeq, Bool.and_eq_true, beq_iff_eq]
      constructor
      · rintro ⟨hxy, hs⟩
        obtain ⟨t, ht⟩ := (ih ys).mp hs
        exact ⟨t, by rw [List.cons_append, ← hxy, ht]⟩
      · rintro ⟨t, ht⟩
        rw [List.cons_append] at ht
        obtain ⟨h1, h2⟩ := List.cons.injEq .. ▸ ht
        exact ⟨h1.symm, (ih ys).mpr ⟨t, h2⟩⟩

theorem jsEndsWith_iff (s post : String) :
    jsEndsWith s post = true ↔ ∃ pre : String, s = pre ++ post := by
  unfold jsEndsWith
  rw [startsSeq_iff]
  constructor
  · rintro ⟨t, ht⟩
    refine ⟨String.mk t.reverse, stringExt ?_⟩
    have h1 : s.toList = (post.toList.reverse ++ t).reverse := by
      rw [← ht, List.reverse_reverse]
    rw [List.reverse_append, List.reverse_reverse] at h1
    rw [h1, stringToList_append]
    rfl
  · rintro ⟨pre, rfl⟩
    refine ⟨pre.toList.reverse, ?_⟩
    rw [stringToList_append, List.reverse_append]

theorem toNat_ofNat_small (n : Nat) (h : n < 55296) : (Char.ofNat n).toNat = n := by
  have hv : n.isValidChar := Or.inl h
  simp [Char.ofNat, dif_pos hv, Char.ofNatAux, Char.toNat, UInt32.toNat, BitVec.toNat_ofNatLt]

theorem isAsciiUpper_lowerChar (c : Char) : isAsciiUpper (lowerChar c) = false := by
  unfold lowerChar
  by_cases h : isAsciiUpper c = true
  · rw [if_pos h]
    unfold isAsciiUpper at h ⊢
    obtain ⟨h1, h2⟩ := Bool.and_eq_true _ _ |>.mp h
    have h1' : 65 ≤ c.toNat := by simpa using h1
    have h2' : c.toNat ≤ 90 := by simpa using h2
    have hlt : c.toNat + 32 < 55296 := by omega
    rw [toNat_ofNat_small _ hlt]
    simp only [Bool.and_eq_false_iff]
    right
    simp only [decide_eq_false_iff_not]
    omega
  · rw [if_neg h]
    simpa using h

theorem isLowerAsciiStr_lowerStr (s : String) : isLowerAsciiStr (lowerStr s) = true := by
  show (s.toList.map lowerChar).all (fun c => !(isAsciiUpper c)) = true
  rw [List.all_eq_true]
  intro c hc
  rw [List.mem_map] at hc
  obtain ⟨c0, _, rfl⟩ := hc
  rw [isAsciiUpper_lowerChar]
  rfl

theorem parseUrl_hostname_lower (s : String) (p : ParsedUrl) (h : parseUrl s = some p)
    (hsp : p.scheme ∈ SPECIAL_SCHEMES) : isLowerAsciiStr p.hostname = true := by
  unfold parseUrl at h
  split at h
  · exact absurd h (by simp)
  · split at h
    · exact absurd h (by simp)
    · split at h
      · split at h
        · dsimp only at h
          split at h
          · exact absurd h (by simp)
          · rw [Option.some.injEq] at h
            subst h
            dsimp only at hsp ⊢
            rw [if_pos hsp]
            exact isLowerAsciiStr_lowerStr _
        · rw [Option.some.injEq] at h
          rw [← h]
          rfl
      · exact absurd h (by simp)

/-! ## Claim C8: exact characterization of `shouldExcludeUrl` -/

theorem empty_hostname_not_excluded :
    EXCLUDED_DOMAINS.all (fun d => !(("" : String) == d || jsEndsWith "" ("." ++ d))) = true := by
  decide

/-- C8: `shouldExcludeUrl url` is true exactly when the URL starts with
the `mailto:` or `tel:` scheme, or the URL parses and its hostname
equals, or is a subdomain of, an entry of the fixed excluded-domains
list; for every other input — including unparsable URLs — it is false. -/
theorem c8_shouldExcludeUrl_characterization (u : String) :
    shouldExcludeUrl u = true ↔
      jsStartsWith u "mailto:" = true ∨ jsStartsWith u "tel:" = true ∨
      ∃ p, parseUrl u = some p ∧ hostnameMatchesExcluded p.hostname := by
  unfold shouldExcludeUrl
  by_cases hm : (jsStartsWith u "mailto:" || jsStartsWith u "tel:") = true
  · rw [if_pos hm]
    constructor
    · intro _
      rcases Bool.or_eq_true _ _ |>.mp hm with h | h
      · exact Or.inl h
      · exact Or.inr (Or.inl h)
    · intro _; rfl
  · rw [if_neg hm]
    simp only [Bool.or_eq_true, not_or, Bool.not_eq_true] at hm
    obtain ⟨hm1, hm2⟩ := hm
    dsimp only
    rw [List.any_eq_true]
    cases hp : parseUrl u with
    | none =>
      have hd : extractDomain u = "" := by unfold extractDomain; rw [hp]
      rw [hd]
      constructor
      · rintro ⟨d, hdm, hmatch⟩
        exfalso
        have hall := List.all_eq_true.mp empty_hostname_not_excluded d hdm
        rw [hmatch] at hall
        exact absurd hall (by simp)
      · rintro (h | h | ⟨p, hpp, _⟩)
        · rw [hm1] at h; exact absurd h (by simp)
        · rw [hm2] at h; exact absurd h (by simp)
        · exact absurd hpp (by simp)
    | some p =>
      have hd : extractDomain u = p.hostname := by unfold extractDomain; rw [hp]
      rw [hd]
      constructor
      · rintro ⟨d, hdm, hmatch⟩
        refine Or.inr (Or.inr ⟨p, rfl, d, hdm, ?_⟩)
        rcases Bool.or_eq_true _ _ |>.mp hmatch with h | h
        · exact Or.inl (eq_of_beq h)
        · exact Or.inr ((jsEndsWith_iff _ _).mp h)
      · rintro (h | h | ⟨p', hpp, d, hdm, hmatch⟩)
        · rw [hm1] at h; exact absurd h (by simp)
        · rw [hm2] at h; exact absurd h (by simp)
        · rw [Option.some.injEq] at hpp
          subst hpp
          refine ⟨d, hdm, ?_⟩
          rcases hmatch with h | ⟨pre, hpre⟩
          · rw [h]; simp
          · rw [hpre]
            have := (jsEndsWith_iff (pre ++ ("." ++ d)) ("." ++ d)).mpr ⟨pre, rfl⟩
            rw [this]
            simp

/-! ## Claim theorems, witnesses and counterexamples -/

/-- C1 (counterexample): contrary to the claim, the classifier does NOT
return the different-service verdict for origin `https://acme.com/` and
candidate `https://acme.com/admin-portal`: it returns `false`. -/
theorem c1_counterexample :
    ¬ isPotentialDifferentService "https://acme.com/" "https://acme.com/admin-portal" = true := by
  decide

/-- C1 (amended): for origin `https://acme.com/` and candidate
`https://acme.com/admin-portal` the hostnames are equal and the single
path segment `admin-portal` does match the `admin` indicator with a
hyphen boundary, but the strict-path-extension rule DOES suppress the
classification — `/admin-portal` is a strict textual extension of the
origin path `/` — so `isPotentialDifferentService` returns `false`
(verdict `sameOriginSubpage`). -/
theorem c1_amended_root_path_suppression :
    extractDomain "https://acme.com/" = "acme.com" ∧
    extractDomain "https://acme.com/admin-portal" = "acme.com" ∧
    hasToolIndicator "/admin-portal" = true ∧
    jsStartsWith "/admin-portal" "/" = true ∧
    isPotentialDifferentService "https://acme.com/" "https://acme.com/admin-portal" = false := by
  decide

/-- C2 (counterexample): in the `c2web` run, `c2deep` is observed while
processing the child request rooted at the seed (it is recorded under the
child's key), yet the seed's output record lists only `c2child`. -/
theorem c2_counterexample :
    ((findCompanyServices [c2company] c2web).map ResultRecord.allExploredUrls) = [[c2child]] ∧
    c2deep ∈ getList (findCompanyServicesRun [c2company] c2web
      MAX_REQUESTS_PER_CRAWL).st.allExploredUrls c2child ∧
    c2deep ∉ (firstResult (findCompanyServices [c2company] c2web)).allExploredUrls := by
  decide

/-- C2 (witness): the amended theorem applied to the `c2web` scenario. -/
theorem c2_witness :
    c2child ∈ seedStepExplored c2company c2web ∧
    c2child ∈ (firstResult (findCompanyServices [c2company] c2web)).allExploredUrls :=
  ⟨by decide, c2_amended_seed_key_explored c2company c2web c2child (by decide)⟩

/-- C3: in every crawl session, every processed request labelled `child`
satisfies `childClean`: its phases enqueue no request at all, and its
extraction phases leave `potentialDifferentServices` and
`startUrlChildren` unchanged — only `allExploredUrls` is written.  Only
`seed`-labelled requests may enqueue extracted links. -/
theorem c3_child_extraction_clean (companies : List Company) (web : String → PageModel)
    (fuel : Nat) (e : Request × PhaseLog)
    (he : e ∈ (findCompanyServicesRun companies web fuel).trace) :
    childClean e := by
  have hInv := runCrawl_invC3 web fuel
    ⟨initState companies,
     (addMany [] [] (initialRequests companies)).1,
     (addMany [] [] (initialRequests companies)).2,
     []⟩ (invC3_initial companies)
  exact hInv.2.2 e he

/-- C3 (witness): the claim theorem applied to the child entry of the
`c3web` run. -/
theorem c3_witness :
    resolvedLabel c3entry.1 = "child" ∧
    c3entry.2.probeEnq = [] ∧ c3entry.2.crossEnq = [] ∧ c3entry.2.staticEnq = [] ∧
    c3entry.2.stAfterCross.potentialDifferentServices =
      c3entry.2.stAfterProbe.potentialDifferentServices ∧
    c3entry.2.stAfterCross.startUrlChildren = c3entry.2.stAfterProbe.startUrlChildren ∧
    c3entry.2.stAfterStatic = c3entry.2.stAfterCross :=
  ⟨by decide, c3_child_extraction_clean [c3company] c3web 100 c3entry (by decide) (by decide)⟩

/-- C4 (code bug): in the `c4web` run the child request's cross-domain
loop reads `potentialDifferentServices[url].includes(...)` on a URL that
was never initialized (only seed URLs are), so the handler throws a
`TypeError` and the request's processing is aborted — contrary to the
claim that no probing/classification error aborts the enclosing request.
The trace shows: seed processed cleanly, child threw in the cross-domain
loop before enqueueing anything. -/
theorem c4_bug_exhibit :
    ((findCompanyServicesRun [c4company] c4web MAX_REQUESTS_PER_CRAWL).trace.map
      fun e => resolvedLabel e.1) = ["start", "child"] ∧
    ((findCompanyServicesRun [c4company] c4web MAX_REQUESTS_PER_CRAWL).trace.map
      fun e => e.2.crossErr) = [false, true] ∧
    ((findCompanyServicesRun [c4company] c4web MAX_REQUESTS_PER_CRAWL).trace.map
      fun e => e.2.crossEnq) = [[], []] := by
  decide

/-- C5 (counterexample): on a seed request whose only probe outcome is an
in-place navigation, the resolved URL is recorded as a discovered service
but — contrary to the claim — no child request is enqueued: every
enqueue list of the handler is empty. -/
theorem c5_counterexample :
    c5nav ∈ getList (requestHandler c5reqSeed c5pageNav
      (initState [c5company])).stAfterProbe.potentialDifferentServices c5seed ∧
    (requestHandler c5reqSeed c5pageNav (initState [c5company])).probeEnq = [] ∧
    (requestHandler c5reqSeed c5pageNav (initState [c5company])).crossEnq = [] ∧
    (requestHandler c5reqSeed c5pageNav (initState [c5company])).staticEnq = [] := by
  decide

/-- C5 (witness): the amended theorem applied to a seed request whose
probe outcome opens a new context on `c5new`. -/
theorem c5_witness :
    c5new ∈ getList (requestHandler c5reqSeed c5pageNew
      (initState [c5company])).stAfterProbe.allExploredUrls c5reqSeed.url ∧
    c5new ∈ getList (requestHandler c5reqSeed c5pageNew
      (initState [c5company])).stAfterProbe.potentialDifferentServices c5reqSeed.url ∧
    childReq c5new c5reqSeed.url (reqOriginalDomain c5reqSeed) (reqCompanyName c5reqSeed) ∈
      (requestHandler c5reqSeed c5pageNew (initState [c5company])).probeEnq :=
  (c5_amended_prober_recording c5reqSeed c5pageNew (initState [c5company])
    (by decide) (by decide)).1 c5new (by decide) (by decide)

/-- C6: for every run, no output record's `potentialDifferentServices`
list contains that record's own seed URL: the final flattening filters
the seed URL out. -/
theorem c6_output_never_contains_seed (companies : List Company) (web : String → PageModel)
    (rec : ResultRecord) (hrec : rec ∈ findCompanyServices companies web) :
    rec.url ∉ rec.potentialDifferentServices := by
  unfold findCompanyServices at hrec
  rw [List.mem_map] at hrec
  obtain ⟨c, hc, hrc⟩ := hrec
  rw [← hrc]
  intro hmem
  dsimp only at hmem
  rw [List.mem_filter] at hmem
  have hne := hmem.2
  simp at hne

/-- C6 (witness): the claim theorem applied to the `c6web` run, where the
brand-token pass records the seed URL itself into the registry and the
output filter removes it. -/
theorem c6_witness : c6rec.url ∉ c6rec.potentialDifferentServices :=
  c6_output_never_contains_seed [c6company] c6web c6rec (by decide)

/-- C7: for origin `https://acme.com/blog` and candidate
`https://acme.com/blog/announcing-app-support`, the classifier returns
`false` (verdict `sameOriginSubpage`): the candidate is not classified as
a different service. -/
theorem c7_blog_subpage_same_origin :
    isPotentialDifferentService "https://acme.com/blog"
      "https://acme.com/blog/announcing-app-support" = false := by
  decide

/-- C9 (amended): `extractDomain` never raises: for every string it
returns either the empty string (unparsable input) or the parsed URL's
hostname; for special-scheme URLs (http, https, ws, wss, ftp, file —
where WHATWG host parsing lower-cases the host) that hostname contains
no ASCII uppercase letter.  For other schemes the host is opaque and
preserves case (see the counterexample). -/
theorem c9_extractDomain_lowercase_or_empty (u : String) :
    extractDomain u = "" ∨
    ∃ p, parseUrl u = some p ∧ extractDomain u = p.hostname ∧
      (p.scheme ∈ SPECIAL_SCHEMES → isLowerAsciiStr p.hostname = true) := by
  cases hp : parseUrl u with
  | none =>
    left
    unfold extractDomain
    rw [hp]
  | some p =>
    right
    refine ⟨p, rfl, ?_, fun hsp => parseUrl_hostname_lower u p hp hsp⟩
    unfold extractDomain
    rw [hp]

/-- C9 (counterexample): for the non-special-scheme URL `foo://UP/` the
program's `extractDomain` returns the case-preserved opaque host `UP` —
neither the empty string nor a lowercase hostname, refuting the claim as
stated. -/
theorem c9_counterexample :
    extractDomain "foo://UP/" = "UP" ∧ isLowerAsciiStr "UP" = false := by
  decide

/-- C9 (witness): the amended theorem applied at a special-scheme URL. -/
theorem c9_witness :
    extractDomain "https://ACME.example/" = "" ∨
    ∃ p, parseUrl "https://ACME.example/" = some p ∧
      extractDomain "https://ACME.example/" = p.hostname ∧
      (p.scheme ∈ SPECIAL_SCHEMES → isLowerAsciiStr p.hostname = true) :=
  c9_extractDomain_lowercase_or_empty "https://ACME.example/"

/-- C10 (counterexample): a `child`-labelled request with empty
`companyName` whose page has a non-excluded cross-domain anchor does NOT
record the anchor as a discovered service nor enqueue it — the handler
throws on the uninitialized registry instead, so the claim fails for
child requests. -/
theorem c10_counterexample :
    reqCompanyName c10childReq = "" ∧
    (requestHandler c10childReq c10page (initState [c10company])).crossErr = true ∧
    (requestHandler c10childReq c10page (initState [c10company])).crossEnq = [] ∧
    getList (requestHandler c10childReq c10page
      (initState [c10company])).stAfterCross.potentialDifferentServices c10child = [] := by
  decide

/-- C10 (amended): for every `start`-labelled request whose resolved
`companyName` is the empty string and whose URL has registry entries,
every non-excluded cross-domain anchor passes the brand-token check
(the empty string is a substring of every URL), is recorded as explored
and as a discovered service, and is submitted for enqueueing as a `child`
request. -/
theorem c10_amended_empty_name_seed_accepts_all (req : Request) (page : PageModel)
    (st0 : CrawlState)
    (hcn : reqCompanyName req = "")
    (hlab : resolvedLabel req = "start")
    (hp : (regLookup st0.potentialDifferentServices req.url).isSome = true)
    (hs : (regLookup st0.startUrlChildren req.url).isSome = true)
    (t : String) (ht : t ∈ page.crossDomainLinks) (hex : shouldExcludeUrl t = false) :
    t ∈ getList (requestHandler req page st0).stAfterCross.allExploredUrls req.url ∧
    t ∈ getList (requestHandler req page st0).stAfterCross.potentialDifferentServices req.url ∧
    childReq t req.url (reqOriginalDomain req) "" ∈ (requestHandler req page st0).crossEnq := by
  have h := requestHandler_cross_spec req page st0 hlab hp hs t ht hex
    (by rw [hcn]; exact jsIncludes_empty _)
  rw [hcn] at h
  exact h

/-- C10 (witness): the amended theorem applied to a seed request of a
company with the empty name. -/
theorem c10_witness :
    c10cross ∈ getList (requestHandler c10reqSeed c10page
      (initState [c10company])).stAfterCross.allExploredUrls c10reqSeed.url ∧
    c10cross ∈ getList (requestHandler c10reqSeed c10page
      (initState [c10company])).stAfterCross.potentialDifferentServices c10reqSeed.url ∧
    childReq c10cross c10reqSeed.url (reqOriginalDomain c10reqSeed) "" ∈
      (requestHandler c10reqSeed c10page (initState [c10company])).crossEnq :=
  c10_amended_empty_name_seed_accepts_all c10reqSeed c10page (initState [c10company])
    (by decide) (by decide) (by decide) (by decide) c10cross (by decide) (by decide)
